import Mathlib

/-!
Verification of the `reduce-array-dim` transformation implemented in
`clang_delta/ReduceArrayDim.cpp`.

The development shallowly embeds the pass.  Array types are modelled as the
ordered list of their array-type layers, outer to inner, exactly the shape
produced by `getArrayDimensionAndTypes`.  Index expressions are modelled by a
small expression tree mirroring the clang expression forms the pass inspects
(`IntegerLiteral`, `CharacterLiteral`, parentheses, casts, binary `+` and `*`,
and the conditional operator), together with their source text.  Text produced
by the rewriter is modelled as Lean strings, and a small fuel-indexed
recursive-descent evaluation function over the relevant fragment of C
expression grammar (numbers, parentheses, `*`, `+`, `?:`) gives the meaning of
the synthesized index text under standard C precedence.
-/

/-- Kind of one array-type layer, mirroring the clang classes the pass
distinguishes: `ConstantArrayType` (with its extent), `IncompleteArrayType`,
`VariableArrayType` and `DependentSizedArrayType`. -/
inductive ArrKind where
  | fixed (extent : Nat)
  | incomplete
  | variableArr
  | dependentSized
deriving DecidableEq

/-- A variable declaration as the pass sees it: its canonical identity and the
ordered list of array layers of its type, outer to inner.  A non-array
declaration has an empty layer list. -/
structure VarDeclM where
  canonicalId : Nat
  dims : List ArrKind
deriving DecidableEq

/-- Modelled from the spec: `getArrayDimension` (Transformation.cpp, not under
src/) peels array layers one at a time and returns the total dimension
count. -/
def getArrayDimension (dims : List ArrKind) : Nat := dims.length

/-- Mutable collection state of the pass: the externally supplied
`TransformationCounter`, the set of visited canonical declarations, the running
`ValidInstanceNum`, and the selected `TheVarDecl`. -/
structure CollectState where
  counter : Nat
  visited : List Nat
  validInstanceNum : Nat
  theVarDecl : Option Nat
deriving DecidableEq

/-- True for the two array-type layer kinds that `addOneVar` skips with
`dyn_cast<DependentSizedArrayType>` and `dyn_cast<VariableArrayType>`. -/
def badKind : ArrKind → Bool
  | ArrKind.variableArr => true
  | ArrKind.dependentSized => true
  | _ => false

/-- Embedding of `ReduceArrayDim::addOneVar` (ReduceArrayDim.cpp:134-159):
skip non-array declarations, declarations with dimension at most 1, and
declarations whose outermost layer is dependently or runtime sized; deduplicate
by canonical identity; count the declaration and select it as the target when
the running count equals the transformation counter. -/
def addOneVar (st : CollectState) (vd : VarDeclM) : CollectState :=
  match vd.dims with
  | [] => st
  | outerK :: restK =>
    if getArrayDimension (outerK :: restK) ≤ 1 then st
    else if badKind outerK then st
    else if vd.canonicalId ∈ st.visited then st
    else
      { st with
        visited := vd.canonicalId :: st.visited,
        validInstanceNum := st.validInstanceNum + 1,
        theVarDecl :=
          if st.counter = st.validInstanceNum + 1 then some vd.canonicalId
          else st.theVarDecl }

/-- Collection phase over a translation unit: fold `addOneVar` over the
variable declarations in source order, starting from the freshly initialized
state. -/
def collectVars (counter : Nat) (decls : List VarDeclM) : CollectState :=
  List.foldl addOneVar
    { counter := counter, visited := [], validInstanceNum := 0, theVarDecl := none }
    decls

/-- Outcome of `HandleTranslationUnit`: the exhausted signal
(`TransMaxInstanceError`), a fatal internal assertion, or proceeding to the
rewrite traversal with the selected target. -/
inductive TUOutcome where
  | exhausted
  | internalAssertFail
  | proceeded (target : Nat)
deriving DecidableEq

/-- Embedding of `ReduceArrayDim::HandleTranslationUnit`
(ReduceArrayDim.cpp:112-132): when `TransformationCounter > ValidInstanceNum`
the pass sets `TransMaxInstanceError` and returns without rewriting; otherwise
it asserts that a target was selected and traverses the tree with the rewrite
visitor.  The fatality of a failed `TransAssert` is modelled from the spec
(section 7, InternalInconsistency): the macro itself is not under src/. -/
def HandleTranslationUnit (counter : Nat) (decls : List VarDeclM) : TUOutcome :=
  let st := collectVars counter decls
  if st.validInstanceNum < counter then TUOutcome.exhausted
  else
    match st.theVarDecl with
    | none => TUOutcome.internalAssertFail
    | some vid => TUOutcome.proceeded vid

/-- Eligibility condition enforced by the code in `addOneVar`: array type,
more than one dimension, and the outermost layer neither dependently nor
runtime sized. -/
def codeEligible (vd : VarDeclM) : Bool :=
  match vd.dims with
  | [] => false
  | [_] => false
  | outerK :: _ :: _ => !badKind outerK

/-- Modelled from the spec: the eligibility criterion as the spec words it,
used for comparison with `codeEligible` — array type, at least two total
dimensions, and no dimension anywhere in the nested chain dependently or
runtime sized. -/
def specEligible (vd : VarDeclM) : Bool :=
  match vd.dims with
  | [] => false
  | [_] => false
  | _ :: _ :: _ => vd.dims.all (fun k => !badKind k)

/-- Invariant of the host type system (clang, an external collaborator): an
array layer whose element layer is runtime sized is itself runtime sized, and
likewise for dependent sizing, so a dependently or runtime sized layer can only
sit below layers of the same kinds.  C11 6.7.6.2p4 states the rule and clang
enforces it when composing array types (a constant array of variable-length
arrays is never built). -/
def clangRealizable : List ArrKind → Bool
  | k1 :: k2 :: rest => (!badKind k2 || badKind k1) && clangRealizable (k2 :: rest)
  | _ => true

/-- Embedding of `ReduceArrayDim::rewriteOneVarDecl`
(ReduceArrayDim.cpp:191-237) at the level of dimension layers.  The input is
the current cached `ArraySz` and the layer list; the result is the new layer
list together with the new cached `ArraySz`, or `none` when one of the
`TransAssert`s fires (fewer than two bracket pairs, or a trailing or
second-to-last layer that is not a `ConstantArrayType` when required).  The
last bracket pair is removed; if the second-to-last layer is incomplete it is
kept as is and the cache is untouched, otherwise the second-to-last bracket
content becomes `LastSz * ArraySz` and the second-to-last extent is cached. -/
def rewriteOneVarDecl (cachedArraySz : Nat) (dims : List ArrKind) :
    Option (List ArrKind × Nat) :=
  match dims.reverse with
  | ArrKind.fixed _ :: ArrKind.incomplete :: rest =>
      some ((ArrKind.incomplete :: rest).reverse, cachedArraySz)
  | ArrKind.fixed lastSz :: ArrKind.fixed secSz :: rest =>
      some ((ArrKind.fixed (lastSz * secSz) :: rest).reverse, secSz)
  | _ => none

/-- Fuel-driven decimal digit expansion of a natural number, most significant
digit first. -/
def natDigitsAux : Nat → Nat → List Char
  | 0, _ => []
  | f + 1, n =>
    if n < 10 then [Char.ofNat (48 + n)]
    else natDigitsAux f (n / 10) ++ [Char.ofNat (48 + n % 10)]

/-- Decimal rendering of a natural number, as `std::stringstream <<` prints an
unsigned value. -/
def natToDecimalStr (n : Nat) : String := String.mk (natDigitsAux (n + 1) n)

/-- Source text of one bracketed dimension specifier after rewriting. -/
def renderBracket : ArrKind → String
  | ArrKind.fixed n => "[" ++ natToDecimalStr n ++ "]"
  | ArrKind.incomplete => "[]"
  | ArrKind.variableArr => "[*]"
  | ArrKind.dependentSized => "[*]"

/-- Source text of a whole dimension-specifier sequence. -/
def renderDims (dims : List ArrKind) : String :=
  List.foldl (fun acc k => acc ++ renderBracket k) "" dims

/-- True for layer kinds that render as valid constant or incomplete array
declarator text. -/
def dimOk : ArrKind → Bool
  | ArrKind.fixed _ => true
  | ArrKind.incomplete => true
  | _ => false

/-- Index expressions as the pass inspects them: integer literals, character
literals, parenthesized expressions, casts (with a bit width for the modelled
truncating conversion), binary `+` and `*`, and the conditional operator. -/
inductive CExprM where
  | intLit (n : Nat)
  | charLit (code : Nat)
  | paren (e : CExprM)
  | castE (bits : Nat) (e : CExprM)
  | addE (a b : CExprM)
  | mulE (a b : CExprM)
  | condE (c t e : CExprM)
deriving DecidableEq

/-- Embedding of clang's `Expr::IgnoreParenCasts` for the modelled expression
forms: strip parentheses and casts. -/
def ignoreParenCasts : CExprM → CExprM
  | CExprM.paren e => ignoreParenCasts e
  | CExprM.castE _ e => ignoreParenCasts e
  | e => e

/-- Embedding of `ReduceArrayDim::isIntegerExpr` (ReduceArrayDim.cpp:239-253):
after `IgnoreParenCasts`, the expression must be an `IntegerLiteral` or a
`CharacterLiteral`. -/
def isIntegerExpr (e : CExprM) : Bool :=
  match ignoreParenCasts e with
  | CExprM.intLit _ => true
  | CExprM.charLit _ => true
  | _ => false

/-- Modelled from the spec: clang's constant evaluator `Expr::EvaluateAsInt`
(an external collaborator, spec section 6) applied to the full index
expression, used by `getIndexAsInteger` (ReduceArrayDim.cpp:255-268).  Casts
truncate to the given bit width; the conditional operator tests its condition
against zero. -/
def evalExpr : CExprM → Nat
  | CExprM.intLit n => n
  | CExprM.charLit c => c
  | CExprM.paren e => evalExpr e
  | CExprM.castE bits e => evalExpr e % 2 ^ bits
  | CExprM.addE a b => evalExpr a + evalExpr b
  | CExprM.mulE a b => evalExpr a * evalExpr b
  | CExprM.condE c t e => if evalExpr c ≠ 0 then evalExpr t else evalExpr e

/-- Source text of a modelled index expression, exactly as written: explicit
parentheses appear only where the tree carries a `paren` node. -/
def render : CExprM → String
  | CExprM.intLit n => natToDecimalStr n
  | CExprM.charLit c => String.mk [Char.ofNat 39, Char.ofNat c, Char.ofNat 39]
  | CExprM.paren e => "(" ++ render e ++ ")"
  | CExprM.castE bits e => "(int" ++ natToDecimalStr bits ++ ")" ++ render e
  | CExprM.addE a b => render a ++ "+" ++ render b
  | CExprM.mulE a b => render a ++ "*" ++ render b
  | CExprM.condE c t e => render c ++ "?" ++ render t ++ ":" ++ render e

/-- Character list of the synthesized replacement text built at
ReduceArrayDim.cpp:292: `"(" << SecStr << ")*" << ArraySz << "+" << LastStr`. -/
def mkNewIdxChars (sec : List Char) (arraySz : Nat) (last : List Char) :
    List Char :=
  '(' :: sec ++ ')' :: '*' :: (natToDecimalStr arraySz).data ++ '+' :: last

/-- String form of the synthesized replacement text. -/
def mkNewIdxStr (secStr : String) (arraySz : Nat) (lastStr : String) : String :=
  String.mk (mkNewIdxChars secStr.data arraySz lastStr.data)

/-- Result of rewriting one subscript chain: either the two trailing indices
fold to a single integer, or a textual expression is synthesized. -/
inductive RewriteOut where
  | folded (newIdx : Nat)
  | synthesized (text : String)
deriving DecidableEq

/-- Embedding of `ReduceArrayDim::rewriteSubscriptExpr`
(ReduceArrayDim.cpp:270-295).  The input list is `IdxExprs` exactly as the
code receives it from `getBaseExprAndIdxExprs` (Transformation.cpp, not under
src/; modelled from the spec, section 4.4): the trailing source index first,
then the second-to-last, then the remaining indices inward-out.  When both
trailing indices pass `isIntegerExpr`, the new index is
`SecIdx * ArraySz + LastIdx`; otherwise the replacement text
`(SecStr)*ArraySz+LastStr` is synthesized. -/
def rewriteSubscriptExpr (arraySz : Nat) (idxExprs : List CExprM) :
    Option RewriteOut :=
  match idxExprs with
  | lastE :: secE :: _ =>
    if isIntegerExpr lastE && isIntegerExpr secE then
      some (RewriteOut.folded (evalExpr secE * arraySz + evalExpr lastE))
    else
      some (RewriteOut.synthesized (mkNewIdxStr (render secE) arraySz (render lastE)))
  | _ => none

/-- Modelled from the spec: the textual effect of
`RewriteUtils::removeArraySubscriptExpr` plus `replaceExpr` (RewriteUtils.cpp,
not under src/) on a whole chain, given in outer-to-inner source order — the
last bracket is deleted and the second-to-last index text is replaced, so the
remaining index texts are the chain minus its two trailing indices, followed by
the replacement. -/
def rewrittenChainTexts (arraySz : Nat) (chain : List CExprM) :
    Option (List String) :=
  match rewriteSubscriptExpr arraySz chain.reverse with
  | some (RewriteOut.folded n) =>
      some ((chain.dropLast.dropLast).map render ++ [natToDecimalStr n])
  | some (RewriteOut.synthesized s) =>
      some ((chain.dropLast.dropLast).map render ++ [s])
  | none => none

/-- Result-type kinds distinguished by `handleOneArraySubscriptExpr`. -/
inductive TyKind where
  | scalar
  | struct
  | union
  | array
  | otherTy
deriving DecidableEq

/-- Shape of the base expression left after peeling all subscripts: a direct
reference to a variable declaration, a reference to some other declaration, or
a computed expression. -/
inductive BaseKind where
  | varRef (vid : Nat)
  | nonVarRef
  | notDeclRef
deriving DecidableEq

/-- Embedding of `Type::isScalarType` at the granularity the pass needs. -/
def isScalarType : TyKind → Bool
  | TyKind.scalar => true
  | _ => false

/-- Embedding of `Type::isStructureType` at the granularity the pass needs. -/
def isStructureType : TyKind → Bool
  | TyKind.struct => true
  | _ => false

/-- Embedding of `Type::isUnionType` at the granularity the pass needs. -/
def isUnionType : TyKind → Bool
  | TyKind.union => true
  | _ => false

/-- Embedding of `ReduceArrayDim::handleOneArraySubscriptExpr`
(ReduceArrayDim.cpp:297-326) as the decision whether a visited subscript node
triggers `rewriteSubscriptExpr`: the node's result type must be scalar, struct
or union; the collected index list must have more than one entry; and the base
must be a `DeclRefExpr` to a `VarDecl` whose canonical declaration is the
target. -/
def handleOneArraySubscriptExpr (theVar : Nat) (aseTy : TyKind) (numIdx : Nat)
    (base : BaseKind) : Bool :=
  if !isScalarType aseTy && !isStructureType aseTy && !isUnionType aseTy then
    false
  else if numIdx ≤ 1 then false
  else
    match base with
    | BaseKind.varRef vid => decide (vid = theVar)
    | _ => false

/-- Number of rewrites triggered along the nodes of one subscript chain, given
the result types of the nodes with 1, 2, ... indices; the rewrite visitor fires
`handleOneArraySubscriptExpr` on every nested node
(ReduceArrayDim.cpp:91-96). -/
def countTriggersAux (theVar : Nat) (base : BaseKind) : Nat → List TyKind → Nat
  | _, [] => 0
  | j, t :: rest =>
    (if handleOneArraySubscriptExpr theVar t j base then 1 else 0) +
      countTriggersAux theVar base (j + 1) rest

/-- Number of rewrites triggered along a chain, outermost node last. -/
def countTriggers (theVar : Nat) (base : BaseKind) (nodeTys : List TyKind) :
    Nat :=
  countTriggersAux theVar base 1 nodeTys

/-- State of the recursive-descent evaluation of the modelled C expression
grammar: a full conditional expression, an additive expression, the running
additive tail with its accumulator, a multiplicative expression, the running
multiplicative tail with its accumulator, or a primary expression. -/
inductive PMode where
  | expr
  | add
  | addL (acc : Nat)
  | mul
  | mulL (acc : Nat)
  | prim
deriving DecidableEq

/-- Numeric value of a decimal digit character. -/
def digitVal (c : Char) : Nat := c.toNat - 48

/-- Read a nonempty run of decimal digits from the front of the input,
returning its value and the rest. -/
def parseNum (l : List Char) : Option (Nat × List Char) :=
  let ds := l.takeWhile Char.isDigit
  if ds.isEmpty then none
  else some (ds.foldl (fun a c => a * 10 + digitVal c) 0, l.dropWhile Char.isDigit)

/-- Fuel-indexed recursive-descent evaluation of the fragment of the C
expression grammar relevant to the synthesized index text: numbers,
parentheses, left-associative `*` and `+` with their standard precedences, and
the right-associative conditional operator `?:` at the lowest precedence.  The
result is the value of the longest expression readable from the front of the
input together with the unconsumed rest, or `none` on a syntax error or when
the fuel runs out. -/
def parseF : Nat → PMode → List Char → Option (Nat × List Char)
  | 0, _, _ => none
  | f + 1, PMode.expr, l =>
    match parseF f PMode.add l with
    | none => none
    | some (a, r) =>
      match r with
      | [] => some (a, [])
      | c :: r1 =>
        if c = '?' then
          match parseF f PMode.expr r1 with
          | none => none
          | some (t, r2) =>
            match r2 with
            | [] => none
            | c2 :: r3 =>
              if c2 = ':' then
                match parseF f PMode.expr r3 with
                | none => none
                | some (e, r4) => some (if a ≠ 0 then t else e, r4)
              else none
        else some (a, c :: r1)
  | f + 1, PMode.add, l =>
    match parseF f PMode.mul l with
    | none => none
    | some (a, r) => parseF f (PMode.addL a) r
  | f + 1, PMode.addL acc, l =>
    match l with
    | [] => some (acc, [])
    | c :: r =>
      if c = '+' then
        match parseF f PMode.mul r with
        | none => none
        | some (b, r2) => parseF f (PMode.addL (acc + b)) r2
      else some (acc, c :: r)
  | f + 1, PMode.mul, l =>
    match parseF f PMode.prim l with
    | none => none
    | some (a, r) => parseF f (PMode.mulL a) r
  | f + 1, PMode.mulL acc, l =>
    match l with
    | [] => some (acc, [])
    | c :: r =>
      if c = '*' then
        match parseF f PMode.prim r with
        | none => none
        | some (b, r2) => parseF f (PMode.mulL (acc * b)) r2
      else some (acc, c :: r)
  | f + 1, PMode.prim, l =>
    match l with
    | c :: r =>
      if c = '(' then
        match parseF f PMode.expr r with
        | none => none
        | some (v, r2) =>
          match r2 with
          | c2 :: r3 => if c2 = ')' then some (v, r3) else none
          | [] => none
      else parseNum l
    | [] => parseNum l

/-- Value of a complete expression text under the modelled C grammar: the
evaluation must consume the whole input. -/
def parseTop (l : List Char) : Option Nat :=
  match parseF (4 * l.length + 8) PMode.expr l with
  | some (v, []) => some v
  | _ => none


/-- Fuel monotonicity of the grammar evaluation: a successful run stays
successful, with the same result, when one unit of fuel is added. -/
theorem parseF_mono : ∀ (f : Nat) (m : PMode) (l : List Char)
    (out : Nat × List Char),
    parseF f m l = some out → parseF (f + 1) m l = some out := by
  intro f
  induction f with
  | zero => intro m l out h; simp [parseF] at h
  | succ f ih =>
    intro m l out h
    generalize hG : f + 1 = g
    rw [hG] at ih
    cases m with
    | expr =>
      rcases hA : parseF f PMode.add l with _ | ⟨a, r⟩
      · simp [parseF, hA] at h
      · have hA2 := ih _ _ _ hA
        rcases r with _ | ⟨c, r1⟩
        · simpa [parseF, hA, hA2] using h
        · by_cases hc : c = '?'
          · subst hc
            rcases hT : parseF f PMode.expr r1 with _ | ⟨t, r2⟩
            · simp [parseF, hA, hT] at h
            · have hT2 := ih _ _ _ hT
              rcases r2 with _ | ⟨c2, r3⟩
              · simp [parseF, hA, hT] at h
              · by_cases hc2 : c2 = ':'
                · subst hc2
                  rcases hE : parseF f PMode.expr r3 with _ | ⟨e, r4⟩
                  · simp [parseF, hA, hT, hE] at h
                  · have hE2 := ih _ _ _ hE
                    simpa [parseF, hA, hA2, hT, hT2, hE, hE2] using h
                · simp [parseF, hA, hT, hc2] at h
          · simpa [parseF, hA, hA2, hc] using h
    | add =>
      rcases hM : parseF f PMode.mul l with _ | ⟨a, r⟩
      · simp [parseF, hM] at h
      · have hM2 := ih _ _ _ hM
        simp [parseF, hM] at h
        have h2 := ih _ _ _ h
        simp [parseF, hM2, h2]
    | addL acc =>
      rcases l with _ | ⟨c, r⟩
      · simpa [parseF] using h
      · by_cases hc : c = '+'
        · subst hc
          rcases hM : parseF f PMode.mul r with _ | ⟨b, r2⟩
          · simp [parseF, hM] at h
          · have hM2 := ih _ _ _ hM
            simp [parseF, hM] at h
            have h2 := ih _ _ _ h
            simp [parseF, hM2, h2]
        · simpa [parseF, hc] using h
    | mul =>
      rcases hP : parseF f PMode.prim l with _ | ⟨a, r⟩
      · simp [parseF, hP] at h
      · have hP2 := ih _ _ _ hP
        simp [parseF, hP] at h
        have h2 := ih _ _ _ h
        simp [parseF, hP2, h2]
    | mulL acc =>
      rcases l with _ | ⟨c, r⟩
      · simpa [parseF] using h
      · by_cases hc : c = '*'
        · subst hc
          rcases hP : parseF f PMode.prim r with _ | ⟨b, r2⟩
          · simp [parseF, hP] at h
          · have hP2 := ih _ _ _ hP
            simp [parseF, hP] at h
            have h2 := ih _ _ _ h
            simp [parseF, hP2, h2]
        · simpa [parseF, hc] using h
    | prim =>
      rcases l with _ | ⟨c, r⟩
      · simpa [parseF] using h
      · by_cases hc : c = '('
        · subst hc
          rcases hE : parseF f PMode.expr r with _ | ⟨v, r2⟩
          · simp [parseF, hE] at h
          · have hE2 := ih _ _ _ hE
            rcases r2 with _ | ⟨c2, r3⟩
            · simp [parseF, hE] at h
            · by_cases hc2 : c2 = ')'
              · subst hc2
                simpa [parseF, hE, hE2] using h
              · simp [parseF, hE, hc2] at h
        · simpa [parseF, hc] using h

/-- Fuel monotonicity, for any larger fuel amount. -/
theorem parseF_mono_le {f g : Nat} (m : PMode) (l : List Char)
    (out : Nat × List Char) (hfg : f ≤ g)
    (h : parseF f m l = some out) : parseF g m l = some out := by
  induction hfg with
  | refl => exact h
  | step _ ih => exact parseF_mono _ _ _ _ ih

/-- A parenthesized expression is read by a primary step: whatever the inner
run leaves after a closing parenthesis is the rest of the primary. -/
theorem parseF_prim_paren (f : Nat) (l r : List Char) (v : Nat)
    (h : parseF f PMode.expr l = some (v, ')' :: r)) :
    parseF (f + 1) PMode.prim ('(' :: l) = some (v, r) := by
  simp [parseF, h]

/-- A multiplicative tail stops at a `+` sign. -/
theorem parseF_mulL_plus (f acc : Nat) (r : List Char) :
    parseF (f + 1) (PMode.mulL acc) ('+' :: r) = some (acc, '+' :: r) := by
  simp [parseF]

/-- A multiplicative tail absorbs `* primary` and continues. -/
theorem parseF_mulL_step (f acc b : Nat) (l r : List Char)
    (out : Nat × List Char)
    (h1 : parseF f PMode.prim l = some (b, r))
    (h2 : parseF f (PMode.mulL (acc * b)) r = some out) :
    parseF (f + 1) (PMode.mulL acc) ('*' :: l) = some out := by
  simp [parseF, h1, h2]

/-- A multiplicative expression is a primary followed by its tail. -/
theorem parseF_mul_intro (f a : Nat) (l r : List Char) (out : Nat × List Char)
    (h1 : parseF f PMode.prim l = some (a, r))
    (h2 : parseF f (PMode.mulL a) r = some out) :
    parseF (f + 1) PMode.mul l = some out := by
  simp [parseF, h1, h2]

/-- An additive tail absorbs `+ multiplicative` and continues. -/
theorem parseF_addL_step (f acc b : Nat) (l r : List Char)
    (out : Nat × List Char)
    (h1 : parseF f PMode.mul l = some (b, r))
    (h2 : parseF f (PMode.addL (acc + b)) r = some out) :
    parseF (f + 1) (PMode.addL acc) ('+' :: l) = some out := by
  simp [parseF, h1, h2]

/-- An additive expression is a multiplicative followed by its tail. -/
theorem parseF_add_intro (f a : Nat) (l r : List Char) (out : Nat × List Char)
    (h1 : parseF f PMode.mul l = some (a, r))
    (h2 : parseF f (PMode.addL a) r = some out) :
    parseF (f + 1) PMode.add l = some out := by
  simp [parseF, h1, h2]

/-- A full expression that consumes the whole input is just its additive part
when no `?` follows. -/
theorem parseF_expr_done (f v : Nat) (l : List Char)
    (h : parseF f PMode.add l = some (v, [])) :
    parseF (f + 1) PMode.expr l = some (v, []) := by
  simp [parseF, h]

/-- Shifting the accumulator of an additive tail shifts its result by the same
amount. -/
theorem parseF_addL_shift : ∀ (f a c : Nat) (l : List Char)
    (out : Nat × List Char),
    parseF f (PMode.addL a) l = some out →
    parseF f (PMode.addL (c + a)) l = some (c + out.1, out.2) := by
  intro f
  induction f with
  | zero => intro a c l out h; simp [parseF] at h
  | succ f ih =>
    intro a c l out h
    rcases l with _ | ⟨ch, r⟩
    · simp [parseF] at h ⊢
      simp [← h]
    · by_cases hch : ch = '+'
      · subst hch
        rcases hM : parseF f PMode.mul r with _ | ⟨b, r2⟩
        · simp [parseF, hM] at h
        · simp [parseF, hM] at h ⊢
          have := ih (a + b) c r2 out h
          rw [Nat.add_assoc]
          exact this
      · rcases out with ⟨v, rest⟩
        simp [parseF, hch] at h ⊢
        simp [← h.1, ← h.2]

/-- A collection step never selects a target when the transformation counter is
zero, since selection compares the counter against a running count that is
always positive at the comparison. -/
theorem addOneVar_preserve_zero (st : CollectState) (vd : VarDeclM)
    (h1 : st.counter = 0) (h2 : st.theVarDecl = none) :
    (addOneVar st vd).counter = 0 ∧ (addOneVar st vd).theVarDecl = none := by
  rcases hd : vd.dims with _ | ⟨k, rest⟩
  · simp [addOneVar, hd, h1, h2]
  · by_cases hdim : getArrayDimension (k :: rest) ≤ 1
    · simp [addOneVar, hd, hdim, h1, h2]
    · by_cases hb : badKind k
      · simp [addOneVar, hd, hdim, hb, h1, h2]
      · by_cases hv : vd.canonicalId ∈ st.visited
        · simp [addOneVar, hd, hdim, hb, hv, h1, h2]
        · simp [addOneVar, hd, hdim, hb, hv, h1, h2]

/-- Folding the collection step over any declaration list with a zero counter
leaves the target unselected. -/
theorem collect_zero : ∀ (decls : List VarDeclM) (st : CollectState),
    st.counter = 0 → st.theVarDecl = none →
    (List.foldl addOneVar st decls).theVarDecl = none := by
  intro decls
  induction decls with
  | nil => intro st _ h2; simpa using h2
  | cons d rest ih =>
    intro st h1 h2
    have h := addOneVar_preserve_zero st d h1 h2
    simpa using ih (addOneVar st d) h.1 h.2

/-- A layer list whose head is a supported kind is all supported when it comes
from the host type system, because unsupported kinds propagate outward. -/
theorem all_good_of_realizable : ∀ (l : List ArrKind) (k : ArrKind),
    clangRealizable (k :: l) = true → badKind k = false →
    (k :: l).all (fun x => !badKind x) = true := by
  intro l
  induction l with
  | nil => intro k _ hk; simp [hk]
  | cons k2 rest ih =>
    intro k hr hk
    simp only [clangRealizable, Bool.and_eq_true] at hr
    have hk2 : badKind k2 = false := by
      rcases hr with ⟨hr1, _⟩
      rw [hk] at hr1
      simpa using hr1
    have hall := ih k2 hr.2 hk2
    simp only [List.all_cons, Bool.and_eq_true] at hall ⊢
    exact ⟨by simp [hk], hall⟩

/-- A node with array result type never triggers a subscript rewrite. -/
theorem handleOne_array_false (v j : Nat) (b : BaseKind) :
    handleOneArraySubscriptExpr v TyKind.array j b = false := rfl

/-- Counting triggers over a run of array-typed nodes reduces to the decision
at the final node. -/
theorem countTriggersAux_front (v : Nat) (b : BaseKind) (tfin : TyKind) :
    ∀ (inner : List TyKind) (j : Nat), (∀ t ∈ inner, t = TyKind.array) →
      countTriggersAux v b j (inner ++ [tfin]) =
        (if handleOneArraySubscriptExpr v tfin (j + inner.length) b then 1
         else 0) := by
  intro inner
  induction inner with
  | nil => intro j _; simp [countTriggersAux]
  | cons t rest ih =>
    intro j h
    have ht : t = TyKind.array := h t (by simp)
    subst ht
    have hrest : ∀ x ∈ rest, x = TyKind.array := fun x hx => h x (by simp [hx])
    have e1 : j + 1 + rest.length = j + (rest.length + 1) := by omega
    simp [countTriggersAux, handleOne_array_false, ih (j + 1) hrest, e1]

/-- C1, counterexample.  On `int a[2][3][4]` with subscript `a[1][2][3]`, the
declaration rewrite caches 3 — the second-to-last pre-merge extent, not the
trailing extent 4 — and the fold produces `2*3+3 = 9`, not
`i(k-1)*dk + ik = 2*4+3 = 11` as the claim states. -/
theorem c1_counterexample :
    rewriteOneVarDecl 0 [ArrKind.fixed 2, ArrKind.fixed 3, ArrKind.fixed 4] =
      some ([ArrKind.fixed 2, ArrKind.fixed 12], 3) ∧
    (3 : Nat) ≠ 4 ∧
    rewriteSubscriptExpr 3 [CExprM.intLit 3, CExprM.intLit 2, CExprM.intLit 1] =
      some (RewriteOut.folded 9) ∧
    (9 : Nat) ≠ 2 * 4 + 3 := by
  refine ⟨by decide, by decide, by decide, by decide⟩

/-- C1, amended.  For every subscript chain on the target whose two trailing
index expressions are literal, the new index is `i(k-1) * d + ik` where `d` is
the original pre-merge second-to-last extent — exactly the value cached by the
declaration rewrite (the code stores the second-to-last extent, not the
trailing one, in `ArraySz`). -/
theorem c1_amended (front : List ArrKind) (d dk s0 a b : Nat)
    (chainFront : List CExprM) :
    rewriteOneVarDecl s0 (front ++ [ArrKind.fixed d, ArrKind.fixed dk]) =
      some (front ++ [ArrKind.fixed (dk * d)], d) ∧
    rewriteSubscriptExpr d
        ((chainFront ++ [CExprM.intLit a, CExprM.intLit b]).reverse) =
      some (RewriteOut.folded (a * d + b)) := by
  constructor
  · simp [rewriteOneVarDecl, List.reverse_append]
  · simp [List.reverse_append, rewriteSubscriptExpr, isIntegerExpr,
      ignoreParenCasts, evalExpr]

/-- C2.  Rewriting an eligible declaration with layers
`front ++ [sec, fixed dk]` removes exactly the last bracket pair; when `sec`
is a fixed extent `d` the second-to-last bracket content becomes the decimal
product `d * dk`, and when `sec` is incomplete it stays incomplete and no
product is computed; in both cases the result has exactly one fewer dimension
and remains renderable constant or incomplete array declarator text. -/
theorem c2_decl_rewrite (front : List ArrKind) (sec : ArrKind) (dk s0 : Nat) :
    (∀ d, sec = ArrKind.fixed d →
      rewriteOneVarDecl s0 (front ++ [sec, ArrKind.fixed dk]) =
        some (front ++ [ArrKind.fixed (d * dk)], d) ∧
      (front ++ [ArrKind.fixed (d * dk)]).length + 1 =
        (front ++ [sec, ArrKind.fixed dk]).length ∧
      (front.all dimOk = true →
        (front ++ [ArrKind.fixed (d * dk)]).all dimOk = true)) ∧
    (sec = ArrKind.incomplete →
      rewriteOneVarDecl s0 (front ++ [sec, ArrKind.fixed dk]) =
        some (front ++ [ArrKind.incomplete], s0) ∧
      (front ++ [ArrKind.incomplete]).length + 1 =
        (front ++ [sec, ArrKind.fixed dk]).length ∧
      (front.all dimOk = true →
        (front ++ [ArrKind.incomplete]).all dimOk = true)) := by
  constructor
  · rintro d rfl
    refine ⟨?_, by simp, ?_⟩
    · simp [rewriteOneVarDecl, List.reverse_append, Nat.mul_comm dk d]
    · intro hall; simp [List.all_append, dimOk] at hall ⊢; exact hall
  · rintro rfl
    refine ⟨?_, by simp, ?_⟩
    · simp [rewriteOneVarDecl, List.reverse_append]
    · intro hall; simp [List.all_append, dimOk] at hall ⊢; exact hall

/-- C2, witness at `int a[3][4]`. -/
theorem c2_decl_rewrite_witness :
    rewriteOneVarDecl 0 [ArrKind.fixed 3, ArrKind.fixed 4] =
      some ([ArrKind.fixed 12], 3) :=
  ((c2_decl_rewrite [] (ArrKind.fixed 3) 4 0).1 3 rfl).1

/-- C3, counterexample.  On `int a[][3]` accessed as `a[5][2]` with instance 1,
the declaration becomes `int a[];` as claimed, but the subscript becomes
`a[2]`, not `a[11]`: the incomplete branch of the declaration rewrite never
stores an extent, so the fold uses the initial cached value 0 and computes
`5*0+2 = 2`. -/
theorem c3_counterexample :
    (collectVars 1 [⟨0, [ArrKind.incomplete, ArrKind.fixed 3]⟩]).theVarDecl =
      some 0 ∧
    rewriteOneVarDecl 0 [ArrKind.incomplete, ArrKind.fixed 3] =
      some ([ArrKind.incomplete], 0) ∧
    renderDims [ArrKind.incomplete] = "[]" ∧
    rewrittenChainTexts 0 [CExprM.intLit 5, CExprM.intLit 2] = some ["2"] ∧
    rewrittenChainTexts 0 [CExprM.intLit 5, CExprM.intLit 2] ≠ some ["11"] := by
  refine ⟨by decide, by decide, by decide, by decide, by decide⟩

/-- C3, amended.  On `int a[][3]` accessed as `a[5][2]`, the declaration
becomes `int a[];` (incomplete preserved, no product computed, cache left
untouched), and the subscript folds to `5*v+2` where `v` is whatever value the
cache currently holds — never 11, and 2 for the initial value 0. -/
theorem c3_amended (v : Nat) :
    rewriteOneVarDecl v [ArrKind.incomplete, ArrKind.fixed 3] =
      some ([ArrKind.incomplete], v) ∧
    rewriteSubscriptExpr v ([CExprM.intLit 5, CExprM.intLit 2].reverse) =
      some (RewriteOut.folded (5 * v + 2)) ∧
    5 * v + 2 ≠ 11 := by
  exact ⟨rfl, rfl, by omega⟩

/-- C4.  On `int a[2][3][4]` containing `a[1][2][3]`, with instance 1: the
declaration is selected, rewritten to `int a[2][12];`, the full chain passes
the rewrite gate, and the subscript becomes `a[1][9]` with the two trailing
literal indices folded into the single integer literal 9. -/
theorem c4_scenario :
    (collectVars 1
        [⟨0, [ArrKind.fixed 2, ArrKind.fixed 3, ArrKind.fixed 4]⟩]).theVarDecl =
      some 0 ∧
    rewriteOneVarDecl 0 [ArrKind.fixed 2, ArrKind.fixed 3, ArrKind.fixed 4] =
      some ([ArrKind.fixed 2, ArrKind.fixed 12], 3) ∧
    renderDims [ArrKind.fixed 2, ArrKind.fixed 12] = "[2][12]" ∧
    handleOneArraySubscriptExpr 0 TyKind.scalar 3 (BaseKind.varRef 0) = true ∧
    rewrittenChainTexts 3 [CExprM.intLit 1, CExprM.intLit 2, CExprM.intLit 3] =
      some ["1", "9"] := by
  refine ⟨by decide, by decide, by decide, by decide, by decide⟩

/-- C5, counterexample.  Requesting instance number 0 with one eligible
candidate present does not yield the exhausted outcome: the guard only catches
counters strictly greater than the count, so a zero counter falls through to
the null-target assertion. -/
theorem c5_counterexample :
    HandleTranslationUnit 0 [⟨0, [ArrKind.fixed 2, ArrKind.fixed 3]⟩] =
      TUOutcome.internalAssertFail ∧
    HandleTranslationUnit 0 [⟨0, [ArrKind.fixed 2, ArrKind.fixed 3]⟩] ≠
      TUOutcome.exhausted := by
  refine ⟨by decide, by decide⟩

/-- C5, amended.  Requesting an instance number strictly greater than the total
eligible candidate count yields the exhausted outcome, before any rewrite
traversal and hence with no mutation; requesting instance number 0 is not
treated as exhaustion — it fails the `counter > count` test and trips the
null-target assertion instead. -/
theorem c5_amended (counter : Nat) (decls : List VarDeclM) :
    ((collectVars counter decls).validInstanceNum < counter →
      HandleTranslationUnit counter decls = TUOutcome.exhausted) ∧
    (counter = 0 →
      HandleTranslationUnit counter decls = TUOutcome.internalAssertFail) := by
  constructor
  · intro h
    simp [HandleTranslationUnit, h]
  · rintro rfl
    have hnone : (collectVars 0 decls).theVarDecl = none :=
      collect_zero decls _ rfl rfl
    simp [HandleTranslationUnit, hnone]

/-- C5, witness at counter 5 over one eligible candidate. -/
theorem c5_amended_witness :
    HandleTranslationUnit 5 [⟨0, [ArrKind.fixed 2, ArrKind.fixed 3]⟩] =
      TUOutcome.exhausted :=
  (c5_amended 5 [⟨0, [ArrKind.fixed 2, ArrKind.fixed 3]⟩]).1 (by decide)

/-- C6.  Under the host type-system invariant that runtime-sized or dependent
layers propagate outward, the eligibility enforced by `addOneVar` (which
inspects only the outermost layer) agrees with the spec criterion (array type,
at least two dimensions, no unsupported dimension anywhere in the chain);
ineligible and already-visited declarations leave the state unchanged, and an
eligible unvisited declaration is counted once, receives the next ordinal, and
becomes the target exactly when that ordinal equals the requested instance
number. -/
theorem c6_eligibility :
    (∀ vd : VarDeclM, clangRealizable vd.dims = true →
      codeEligible vd = specEligible vd) ∧
    (∀ (st : CollectState) (vd : VarDeclM), codeEligible vd = false →
      addOneVar st vd = st) ∧
    (∀ (st : CollectState) (vd : VarDeclM), vd.canonicalId ∈ st.visited →
      addOneVar st vd = st) ∧
    (∀ (st : CollectState) (vd : VarDeclM), codeEligible vd = true →
      vd.canonicalId ∉ st.visited →
      addOneVar st vd =
        { st with
          visited := vd.canonicalId :: st.visited,
          validInstanceNum := st.validInstanceNum + 1,
          theVarDecl :=
            if st.counter = st.validInstanceNum + 1 then some vd.canonicalId
            else st.theVarDecl }) := by
  refine ⟨?_, ?_, ?_, ?_⟩
  · rintro ⟨cid, dims⟩ h
    rcases dims with _ | ⟨k1, _ | ⟨k2, rest⟩⟩
    · rfl
    · rfl
    · by_cases hb : badKind k1
      · simp [codeEligible, specEligible, hb]
      · have hk1 : badKind k1 = false := by simp [hb]
        have hall := all_good_of_realizable (k2 :: rest) k1 h hk1
        simp [codeEligible, specEligible, hk1, hall]
  · rintro st ⟨cid, dims⟩ h
    rcases dims with _ | ⟨k1, _ | ⟨k2, rest⟩⟩
    · rfl
    · simp [addOneVar, getArrayDimension]
    · simp only [codeEligible, Bool.not_eq_false'] at h
      simp [addOneVar, getArrayDimension, h]
  · rintro st ⟨cid, dims⟩ h
    rcases dims with _ | ⟨k1, _ | ⟨k2, rest⟩⟩
    · rfl
    · simp [addOneVar, getArrayDimension]
    · by_cases hb : badKind k1 <;> simp [addOneVar, getArrayDimension, hb, h]
  · rintro st ⟨cid, dims⟩ h hv
    rcases dims with _ | ⟨k1, _ | ⟨k2, rest⟩⟩
    · simp [codeEligible] at h
    · simp [codeEligible] at h
    · simp only [codeEligible, Bool.not_eq_true'] at h
      simp [addOneVar, getArrayDimension, h, hv]

/-- C6, witness: a runtime-sized outer layer is ineligible on both sides, and
an eligible two-dimensional declaration is counted and selected. -/
theorem c6_eligibility_witness :
    codeEligible ⟨0, [ArrKind.variableArr, ArrKind.fixed 3]⟩ =
      specEligible ⟨0, [ArrKind.variableArr, ArrKind.fixed 3]⟩ :=
  c6_eligibility.1 ⟨0, [ArrKind.variableArr, ArrKind.fixed 3]⟩ (by decide)

/-- C7, counterexample.  On `int a[2][3][4]` the cached extent is 3, so a
non-literal chain `a[..][i][0?5:6]` is rewritten with `*3`, not with the
trailing extent `*4` as the claim states; and the synthesized text is not
semantically `(e1)*dk+e2` for every substitution: with `secE = 1` and
`lastE = 0?5:6` the text `(1)*3+0?5:6` means 5 under C precedence (the
conditional grabs the whole sum as its condition), while `(e1)*4+e2 = 10` and
even `(e1)*3+e2 = 9`. -/
theorem c7_counterexample :
    rewriteOneVarDecl 0 [ArrKind.fixed 2, ArrKind.fixed 3, ArrKind.fixed 4] =
      some ([ArrKind.fixed 2, ArrKind.fixed 12], 3) ∧
    rewriteSubscriptExpr 3
        [CExprM.condE (CExprM.intLit 0) (CExprM.intLit 5) (CExprM.intLit 6),
         CExprM.intLit 1] =
      some (RewriteOut.synthesized (mkNewIdxStr "1" 3 "0?5:6")) ∧
    mkNewIdxStr "1" 3 "0?5:6" ≠ mkNewIdxStr "1" 4 "0?5:6" ∧
    parseTop (mkNewIdxStr "1" 3 "0?5:6").data = some 5 ∧
    (5 : Nat) ≠ 1 * 4 + 6 ∧ (5 : Nat) ≠ 1 * 3 + 6 := by
  refine ⟨by decide, by decide, by decide, by decide, by decide, by decide⟩

/-- C7, amended.  The second-to-last index text is replaced by
`(secE)*A+lastE` where `A` is the cached original second-to-last extent (not
the trailing extent).  The explicit parentheses make the multiplication apply
to the whole of `secE` for every substitution (the hypothesis on `s1` holds for
any text that reads as one full expression up to the following `)`); and
whenever `lastE`'s text reads as a complete additive-or-tighter expression, the
whole rewritten text evaluates to `v1*A+v2` under standard C precedence.  A
`lastE` of lower precedence, such as a top-level conditional, is not covered,
since `lastE` is appended without parentheses. -/
theorem c7_amended (s1 s2 : List Char) (arraySz v1 v2 f1 f2 f3 : Nat)
    (h1 : parseF f1 PMode.expr
        (s1 ++ ')' :: '*' :: (natToDecimalStr arraySz).data ++ '+' :: s2) =
      some (v1, ')' :: '*' :: (natToDecimalStr arraySz).data ++ '+' :: s2))
    (h2 : parseF f2 PMode.add s2 = some (v2, []))
    (h3 : parseF f3 PMode.prim ((natToDecimalStr arraySz).data ++ '+' :: s2) =
      some (arraySz, '+' :: s2)) :
    ∃ fuel : Nat, parseF fuel PMode.expr (mkNewIdxChars s1 arraySz s2) =
      some (v1 * arraySz + v2, []) := by
  rcases f2 with _ | g
  · simp [parseF] at h2
  · rcases hm : parseF g PMode.mul s2 with _ | ⟨m, r0⟩
    · simp [parseF, hm] at h2
    · simp [parseF, hm] at h2
      -- h2 : parseF g (PMode.addL m) r0 = some (v2, [])
      have H1 : parseF (f1 + g + f3) PMode.expr
          (s1 ++ ')' :: '*' :: (natToDecimalStr arraySz).data ++ '+' :: s2) =
          some (v1, ')' :: '*' :: (natToDecimalStr arraySz).data ++ '+' :: s2) :=
        parseF_mono_le _ _ _ (by omega) h1
      have H3 : parseF (f1 + g + f3) PMode.prim
          ((natToDecimalStr arraySz).data ++ '+' :: s2) =
          some (arraySz, '+' :: s2) :=
        parseF_mono_le _ _ _ (by omega) h3
      have Hm : parseF (f1 + g + f3) PMode.mul s2 = some (m, r0) :=
        parseF_mono_le _ _ _ (by omega) hm
      have HL : parseF (f1 + g + f3) (PMode.addL m) r0 = some (v2, []) :=
        parseF_mono_le _ _ _ (by omega) h2
      have a1 := parseF_prim_paren (f1 + g + f3) _ _ _ H1
      have a2pre := parseF_mono _ _ _ _ H3
      have a2b := parseF_mulL_plus (f1 + g + f3) (v1 * arraySz) s2
      have a2 := parseF_mulL_step (f1 + g + f3 + 1) v1 arraySz _ _ _ a2pre a2b
      have a3 := parseF_mul_intro (f1 + g + f3 + 2) v1 _ _ _
        (parseF_mono _ _ _ _ a1) a2
      have a4a : parseF (f1 + g + f3 + 1) (PMode.addL (v1 * arraySz + m)) r0 =
          some (v1 * arraySz + v2, []) :=
        parseF_mono _ _ _ _ (parseF_addL_shift _ m (v1 * arraySz) r0 (v2, []) HL)
      have a4 := parseF_addL_step (f1 + g + f3 + 1) (v1 * arraySz) m _ _ _
        (parseF_mono _ _ _ _ Hm) a4a
      have a5 := parseF_add_intro (f1 + g + f3 + 3) (v1 * arraySz) _ _ _
        a3 (parseF_mono _ _ _ _ a4)
      have a6 := parseF_expr_done (f1 + g + f3 + 4) _ _ a5
      exact ⟨f1 + g + f3 + 5, a6⟩

/-- C7, amended witness: `secE` text `0?1:2` (value 2, protected by the added
parentheses) and `lastE` text `2+3` (value 5) with cached extent 3 produce a
text evaluating to `2*3+5 = 11`. -/
theorem c7_amended_witness :
    ∃ fuel : Nat, parseF fuel PMode.expr
      (mkNewIdxChars "0?1:2".data 3 "2+3".data) = some (2 * 3 + 5, []) :=
  c7_amended "0?1:2".data "2+3".data 3 2 5 30 30 30 (by decide) (by decide)
    (by decide)

/-- C8.  A visited subscript node triggers a rewrite exactly when its result
type is scalar, struct or union, its collected index list has at least two
entries, and its base is a direct reference to a variable whose canonical
declaration is the target; every node failing any of these is left unchanged. -/
theorem c8_preconditions (theVar : Nat) (ty : TyKind) (n : Nat)
    (base : BaseKind) :
    handleOneArraySubscriptExpr theVar ty n base = true ↔
      ((ty = TyKind.scalar ∨ ty = TyKind.struct ∨ ty = TyKind.union) ∧
        2 ≤ n ∧ base = BaseKind.varRef theVar) := by
  cases ty <;> cases base <;>
    simp [handleOneArraySubscriptExpr, isScalarType, isStructureType,
      isUnionType] <;>
    omega

/-- C9, counterexample.  For a chain of three subscripts over a target whose
nodes have result types array, scalar, scalar — realized by
`int *a[5][6]` accessed as `a[i][j][k]`, where `a[i][j]` is a scalar pointer —
two nodes pass the gate, so the chain is rewritten twice, not exactly once. -/
theorem c9_counterexample :
    countTriggers 0 (BaseKind.varRef 0)
      [TyKind.array, TyKind.scalar, TyKind.scalar] = 2 ∧ (2 : Nat) ≠ 1 := by
  refine ⟨by decide, by decide⟩

/-- C9, amended.  When every non-outermost node of a chain over the target has
array result type — as is the case whenever the fully indexed element type is
not itself subscriptable — the result-type filter blocks all inner nodes and
exactly one rewrite fires, at the outermost node; an inner node with scalar
result type (pointer-element arrays) also passes the filter and causes an
additional rewrite. -/
theorem c9_amended (tgt : Nat) (inner : List TyKind) (tfin : TyKind)
    (h1 : ∀ t ∈ inner, t = TyKind.array) (h2 : inner ≠ [])
    (h3 : tfin = TyKind.scalar ∨ tfin = TyKind.struct ∨ tfin = TyKind.union) :
    countTriggers tgt (BaseKind.varRef tgt) (inner ++ [tfin]) = 1 := by
  have hlen : 1 ≤ inner.length := List.length_pos.mpr h2
  have hfin : handleOneArraySubscriptExpr tgt tfin (1 + inner.length)
      (BaseKind.varRef tgt) = true := by
    rcases h3 with h | h | h <;> subst h <;>
      simp [handleOneArraySubscriptExpr, isScalarType, isStructureType,
        isUnionType] <;>
      exact h2
  unfold countTriggers
  rw [countTriggersAux_front tgt (BaseKind.varRef tgt) tfin inner 1 h1]
  simp [hfin]

/-- C9, amended witness at a two-subscript chain over a non-pointer target. -/
theorem c9_amended_witness :
    countTriggers 0 (BaseKind.varRef 0) [TyKind.array, TyKind.scalar] = 1 :=
  c9_amended 0 [TyKind.array] TyKind.scalar (by decide) (by decide)
    (Or.inl rfl)

/-- C10.  Literal detection ignores parentheses and casts around an index
expression, so `(2)` and a cast of `3` still count as literals; and whenever
both trailing indices pass the literal test, the chain takes the folding
branch, whose value is the constant evaluation of the full index expressions
(casts included), producing a single integer literal. -/
theorem c10_literal_fold :
    (∀ e : CExprM, isIntegerExpr (CExprM.paren e) = isIntegerExpr e) ∧
    (∀ (w : Nat) (e : CExprM),
      isIntegerExpr (CExprM.castE w e) = isIntegerExpr e) ∧
    (isIntegerExpr (CExprM.paren (CExprM.intLit 2)) = true ∧
     isIntegerExpr (CExprM.castE 8 (CExprM.intLit 3)) = true) ∧
    (∀ (arraySz : Nat) (lastE secE : CExprM) (rest : List CExprM),
      isIntegerExpr lastE = true → isIntegerExpr secE = true →
      rewriteSubscriptExpr arraySz (lastE :: secE :: rest) =
        some (RewriteOut.folded
          (evalExpr secE * arraySz + evalExpr lastE))) := by
  refine ⟨fun e => rfl, fun w e => rfl, by decide, ?_⟩
  intro arraySz lastE secE rest hl hs
  simp [rewriteSubscriptExpr, hl, hs]

/-- C10, witness: a cast literal `(char)300` and a parenthesized literal `(2)`
fold, with the cast evaluated on the full expression (`300` truncates to 44),
to the single literal `2*3+44 = 50`. -/
theorem c10_literal_fold_witness :
    rewriteSubscriptExpr 3
        [CExprM.castE 8 (CExprM.intLit 300), CExprM.paren (CExprM.intLit 2)] =
      some (RewriteOut.folded 50) := by
  have h := c10_literal_fold.2.2.2 3 (CExprM.castE 8 (CExprM.intLit 300))
    (CExprM.paren (CExprM.intLit 2)) [] rfl rfl
  simpa using h
